import Mathlib

set_option maxHeartbeats 1000000

/- Shallow embedding of the chat-assistant application's agent subsystem
   (app.py and models/agent.py): the streaming query executor, the tool
   materializer, the agent builder, the registry client and the
   conversation history store. -/

namespace AgentApp

/-! ## Streaming query executor: data model (app.py, `ask` / `generate`) -/

/-- One entry of a structured (list-valued) message content: a dict whose
"type" field is "text" (carrying a "text" string), "tool_use" (carrying
"partial_json"), or anything else (skipped by both branches of the loop). -/
inductive Item where
  | text (s : String)
  | toolUse (partialJson : String)
  | other
  deriving DecidableEq

/-- Message content as inspected by `generate`: a plain string
(`isinstance(content, str)`) or a list of items (`isinstance(content, list)`). -/
inductive Content where
  | str (s : String)
  | items (l : List Item)
  deriving DecidableEq

/-- A tool-call record as used by `message.tool_calls[0]`: the code reads its
"name" field and stringifies the whole record (`str(tool_call_info)`); `repr`
stands for that stringification. -/
structure ToolCall where
  name : String
  repr : String
  deriving DecidableEq

/-- An `AIMessage` / `AIMessageChunk` as inspected by `generate`.  Each
`Option` field models `hasattr`: `none` means the attribute is absent.  For
`invalid_tool_calls`, `tool_call_chunks` and `additional_kwargs["tool_calls"]`
only the stringification of the first element is used, so entries are kept as
strings.  `additional_kwargs_tool_calls = some l` models
`"tool_calls" in message.additional_kwargs` with value `l`. -/
structure AIMsg where
  content : Content
  tool_calls : Option (List ToolCall)
  invalid_tool_calls : Option (List String)
  tool_call_chunks : Option (List String)
  additional_kwargs_tool_calls : Option (List String)
  deriving DecidableEq

/-- A message inside a chunk: an `AIMessage`/`AIMessageChunk`, a
`ToolMessage` (only its `content` string is used), or any other message type
(ignored by the loop). -/
inductive Msg where
  | ai (m : AIMsg)
  | toolMsg (content : String)
  | other
  deriving DecidableEq

/-- A chunk produced by `astream_graph`: the loop only consumes dict chunks
with `chunk['agent']['messages']`; everything else is skipped. -/
inductive Chunk where
  | agentMsgs (msgs : List Msg)
  | other
  deriving DecidableEq

/-- An output event of the stream: the JSON body of one `data:` frame. -/
inductive Event where
  | textDelta (payload : String)
  | toolDelta (payload : String) (label : Option String)
  | error (msg : String)
  deriving DecidableEq

/-- The two append-only accumulator buffers `accumulated_text` and
`accumulated_tool` (Python lists of fragments, joined at each emission). -/
structure Accum where
  text : List String
  tool : List String
  deriving DecidableEq

/-- A message of the conversation thread as built by the application
(`{"role": ..., "content": ...}`). -/
structure HistMsg where
  role : String
  content : String
  deriving DecidableEq

/-- Terminal state of one query execution (spec section 4.4 state machine;
`notReady` is the early return when the global agent is not initialized). -/
inductive Status where
  | completed
  | timedOut
  | failed
  | notReady
  deriving DecidableEq

/-! ## Streaming query executor: reduction (app.py lines 335-402) -/

/-- The formatted tool fragment `f"\n```json\n{s}\n```\n"`. -/
def toolFragment (s : String) : String :=
  "\n```json\n" ++ s ++ "\n```\n"

/-- Fallback chain of `generate` for an AI message whose content triggered
none of the two content branches: `tool_calls` (first name non-empty), then
`invalid_tool_calls`, then `tool_call_chunks`, then
`additional_kwargs["tool_calls"]`; first match wins.  In the last branch the
code indexes `[0]` unconditionally, so a present-but-empty list raises
IndexError (returned as `.error`). -/
def aiFallback (acc : Accum) (m : AIMsg) : List Event × Except String Accum :=
  match m.tool_calls with
  | some (tc :: _) =>
    if tc.name = "" then aiFallback2 acc m
    else
      let acc' := { acc with tool := acc.tool ++ [toolFragment tc.repr] }
      ([Event.toolDelta (String.join acc'.tool) none], Except.ok acc')
  | _ => aiFallback2 acc m
where
  aiFallback2 (acc : Accum) (m : AIMsg) : List Event × Except String Accum :=
    match m.invalid_tool_calls with
    | some (x :: _) =>
      let acc' := { acc with tool := acc.tool ++ [toolFragment x] }
      ([Event.toolDelta (String.join acc'.tool) (some "Invalid Tool Call")],
        Except.ok acc')
    | _ =>
      match m.tool_call_chunks with
      | some (x :: _) =>
        let acc' := { acc with tool := acc.tool ++ [toolFragment x] }
        ([Event.toolDelta (String.join acc'.tool) none], Except.ok acc')
      | _ =>
        match m.additional_kwargs_tool_calls with
        | some [] => ([], Except.error "list index out of range")
        | some (x :: _) =>
          let acc' := { acc with tool := acc.tool ++ [toolFragment x] }
          ([Event.toolDelta (String.join acc'.tool) none], Except.ok acc')
        | none => ([], Except.ok acc)

/-- Processing of one structured content item (the inner `for item in content`
loop body). -/
def processItem (acc : Accum) : Item → List Event × Accum
  | Item.text s =>
    let acc' := { acc with text := acc.text ++ [s] }
    ([Event.textDelta (String.join acc'.text)], acc')
  | Item.toolUse pj =>
    let acc' := { acc with tool := acc.tool ++ [toolFragment pj] }
    ([Event.toolDelta (String.join acc'.tool) none], acc')
  | Item.other => ([], acc)

/-- The inner `for item in content` loop. -/
def processItems (acc : Accum) : List Item → List Event × Accum
  | [] => ([], acc)
  | i :: is =>
    let (evs, acc') := processItem acc i
    let (evs', acc'') := processItems acc' is
    (evs ++ evs', acc'')

/-- Processing of one message of a chunk (the `for message in ...` loop
body): non-empty string content appends to the text buffer; a non-empty item
list is processed item by item; otherwise the attribute fallback chain runs;
a `ToolMessage` appends its content tagged "Tool Response". -/
def processMsg (acc : Accum) : Msg → List Event × Except String Accum
  | Msg.ai m =>
    match m.content with
    | Content.str s =>
      if s = "" then aiFallback acc m
      else
        let acc' := { acc with text := acc.text ++ [s] }
        ([Event.textDelta (String.join acc'.text)], Except.ok acc')
    | Content.items l =>
      if l = [] then aiFallback acc m
      else
        let (evs, acc') := processItems acc l
        (evs, Except.ok acc')
  | Msg.toolMsg content =>
    let acc' := { acc with tool := acc.tool ++ [toolFragment content] }
    ([Event.toolDelta (String.join acc'.tool) (some "Tool Response")],
      Except.ok acc')
  | Msg.other => ([], Except.ok acc)

/-- The `for message in chunk['agent']['messages']` loop; an exception stops
the loop after the events already yielded. -/
def processMsgs (acc : Accum) : List Msg → List Event × Except String Accum
  | [] => ([], Except.ok acc)
  | m :: ms =>
    match processMsg acc m with
    | (evs, Except.error e) => (evs, Except.error e)
    | (evs, Except.ok acc') =>
      let (evs', r) := processMsgs acc' ms
      (evs ++ evs', r)

/-- Processing of one chunk of `astream_graph`. -/
def processChunk (acc : Accum) : Chunk → List Event × Except String Accum
  | Chunk.agentMsgs msgs => processMsgs acc msgs
  | Chunk.other => ([], Except.ok acc)

/-- Exit of the `async for` loop under `asyncio.timeout`: the stream ended
normally, the deadline fired with chunks still pending, or an exception was
raised while processing a message. -/
inductive LoopExit where
  | done (acc : Accum)
  | timeout
  | exn (e : String)
  deriving DecidableEq

/-- The `async for chunk in astream_graph(...)` loop raced against the
deadline.  `budget` is the number of chunks the deadline allows the loop to
consume; the deadline fires exactly when chunks remain and the budget is
exhausted. -/
def streamLoop (acc : Accum) : List Chunk → Nat → List Event × LoopExit
  | [], _ => ([], LoopExit.done acc)
  | _ :: _, 0 => ([], LoopExit.timeout)
  | c :: cs, b + 1 =>
    match processChunk acc c with
    | (evs, Except.error e) => (evs, LoopExit.exn e)
    | (evs, Except.ok acc') =>
      let (evs', out) := streamLoop acc' cs b
      (evs ++ evs', out)

/-- Result of one query execution: the emitted events, the conversation
thread afterwards, and the terminal state. -/
structure GenResult where
  events : List Event
  history : List HistMsg
  status : Status
  deriving DecidableEq

/-- The timeout error message
`f'Request timed out after {timeout_seconds} seconds'`. -/
def timeoutMessage (t : Nat) : String :=
  "Request timed out after " ++ toString t ++ " seconds"

/-- The `generate` coroutine of the `/ask` route (app.py lines 328-400):
guard on the global agent, run the reduction loop under the deadline, and on
normal completion append the query and the non-empty joined buffers to the
thread; on timeout or exception emit a single error event and leave the
thread untouched. -/
def generate (agentReady : Bool) (query : String) (history0 : List HistMsg)
    (chunks : List Chunk) (budget : Nat) (timeoutSeconds : Nat) : GenResult :=
  if agentReady = false then
    { events := [Event.error "Agent has not been initialized."],
      history := history0, status := Status.notReady }
  else
    match streamLoop ⟨[], []⟩ chunks budget with
    | (evs, LoopExit.done acc) =>
      let final_text := String.join acc.text
      let final_tool := String.join acc.tool
      { events := evs,
        history := history0 ++ [⟨"user", query⟩]
          ++ (if final_text = "" then [] else [⟨"assistant", final_text⟩])
          ++ (if final_tool = "" then [] else [⟨"assistant_tool", final_tool⟩]),
        status := Status.completed }
    | (evs, LoopExit.timeout) =>
      { events := evs ++ [Event.error (timeoutMessage timeoutSeconds)],
        history := history0, status := Status.timedOut }
    | (evs, LoopExit.exn e) =>
      { events := evs
          ++ [Event.error ("Error occurred during query processing: " ++ e)],
        history := history0, status := Status.failed }

/-- Whether an event is an `Error` event. -/
def Event.isError : Event → Bool
  | Event.error _ => true
  | _ => false

/-! ## Helper lemmas: the reduction loop itself never emits `Error` events -/

theorem noErr_aiFallback (acc : Accum) (m : AIMsg) :
    ∀ e ∈ (aiFallback acc m).1, e.isError = false := by
  unfold aiFallback aiFallback.aiFallback2
  repeat' split
  all_goals simp [Event.isError]

theorem noErr_processItem (acc : Accum) (i : Item) :
    ∀ e ∈ (processItem acc i).1, e.isError = false := by
  cases i <;> simp [processItem, Event.isError]

theorem noErr_processItems (l : List Item) :
    ∀ acc, ∀ e ∈ (processItems acc l).1, e.isError = false := by
  induction l with
  | nil => intro acc e he; simp [processItems] at he
  | cons i is ih =>
    intro acc e he
    simp only [processItems] at he
    rcases List.mem_append.mp he with h | h
    · exact noErr_processItem acc i e h
    · exact ih _ e h

theorem noErr_processMsg (acc : Accum) (m : Msg) :
    ∀ e ∈ (processMsg acc m).1, e.isError = false := by
  cases m with
  | ai a =>
    cases hc : a.content with
    | str s =>
      by_cases hs : s = ""
      · intro e he
        simp only [processMsg, hc, if_pos hs] at he
        exact noErr_aiFallback acc a e he
      · simp [processMsg, hc, hs, Event.isError]
    | items l =>
      by_cases hl : l = []
      · intro e he
        simp only [processMsg, hc, if_pos hl] at he
        exact noErr_aiFallback acc a e he
      · intro e he
        simp only [processMsg, hc, if_neg hl] at he
        exact noErr_processItems l acc e he
  | toolMsg c => simp [processMsg, Event.isError]
  | other => simp [processMsg]

theorem noErr_processMsgs (ms : List Msg) :
    ∀ acc, ∀ e ∈ (processMsgs acc ms).1, e.isError = false := by
  induction ms with
  | nil => intro acc e he; simp [processMsgs] at he
  | cons m ms ih =>
    intro acc e he
    simp only [processMsgs] at he
    rcases hp : processMsg acc m with ⟨evs, r⟩
    cases r with
    | error err =>
      rw [hp] at he
      simp only at he
      exact noErr_processMsg acc m e (by rw [hp]; exact he)
    | ok acc' =>
      rw [hp] at he
      simp only at he
      rcases List.mem_append.mp he with h | h
      · exact noErr_processMsg acc m e (by rw [hp]; exact h)
      · exact ih acc' e h

theorem noErr_processChunk (acc : Accum) (c : Chunk) :
    ∀ e ∈ (processChunk acc c).1, e.isError = false := by
  cases c with
  | agentMsgs msgs => exact noErr_processMsgs msgs acc
  | other => simp [processChunk]

theorem noErr_streamLoop (chunks : List Chunk) :
    ∀ acc budget, ∀ e ∈ (streamLoop acc chunks budget).1, e.isError = false := by
  induction chunks with
  | nil => intro acc budget e he; simp [streamLoop] at he
  | cons c cs ih =>
    intro acc budget e he
    cases budget with
    | zero => simp [streamLoop] at he
    | succ b =>
      simp only [streamLoop] at he
      rcases hp : processChunk acc c with ⟨evs, r⟩
      cases r with
      | error err =>
        rw [hp] at he
        exact noErr_processChunk acc c e (by rw [hp]; simpa using he)
      | ok acc' =>
        rw [hp] at he
        simp only at he
        rcases List.mem_append.mp he with h | h
        · exact noErr_processChunk acc c e (by rw [hp]; exact h)
        · exact ih acc' b e h

theorem filter_isError_streamLoop (acc : Accum) (chunks : List Chunk)
    (budget : Nat) : (streamLoop acc chunks budget).1.filter Event.isError = [] :=
  List.filter_eq_nil_iff.mpr fun e he => by
    simp [noErr_streamLoop chunks acc budget e he]

/-! ## C1 and C2: timeout law and completion law -/

/-- C1: if the deadline elapses strictly before the agent's event sequence
terminates (terminal state `TIMED_OUT`), exactly one `Error` event is emitted,
its message contains the configured timeout value, and the conversation
thread gains no new messages (the buffered content is discarded). -/
theorem generate_timeout_law (agentReady : Bool) (query : String)
    (history0 : List HistMsg) (chunks : List Chunk) (budget timeoutSeconds : Nat)
    (h : (generate agentReady query history0 chunks budget timeoutSeconds).status
      = Status.timedOut) :
    (generate agentReady query history0 chunks budget timeoutSeconds).events.filter
        Event.isError = [Event.error (timeoutMessage timeoutSeconds)] ∧
    (∃ a b, timeoutMessage timeoutSeconds = a ++ toString timeoutSeconds ++ b) ∧
    (generate agentReady query history0 chunks budget timeoutSeconds).history
      = history0 := by
  cases agentReady with
  | false => simp [generate] at h
  | true =>
    rcases hsl : streamLoop ⟨[], []⟩ chunks budget with ⟨evs, exit⟩
    cases exit with
    | done acc => simp [generate, hsl] at h
    | timeout =>
      refine ⟨?_, ⟨"Request timed out after ", " seconds", rfl⟩, ?_⟩
      · have hf : evs.filter Event.isError = [] := by
          have := filter_isError_streamLoop ⟨[], []⟩ chunks budget
          rwa [hsl] at this
        simp [generate, hsl, List.filter_append, hf, Event.isError]
      · simp [generate, hsl]
    | exn e => simp [generate, hsl] at h

/-- C1 witness: a concrete run that times out (one pending chunk, zero
budget) satisfies the hypothesis and the conclusion of the timeout law. -/
theorem generate_timeout_law_witness :
    (generate true "q" [] [Chunk.other] 0 5).status = Status.timedOut ∧
    ((generate true "q" [] [Chunk.other] 0 5).events.filter Event.isError
        = [Event.error (timeoutMessage 5)] ∧
      (∃ a b, timeoutMessage 5 = a ++ toString 5 ++ b) ∧
      (generate true "q" [] [Chunk.other] 0 5).history = []) :=
  ⟨rfl, generate_timeout_law true "q" [] [Chunk.other] 0 5 rfl⟩

/-- C2: on normal completion the conversation thread gains a `user` message
equal to the input query, then an `assistant` message iff the final
accumulated text is non-empty, then an `assistant_tool` message iff the final
accumulated tool trace is non-empty, in that order. -/
theorem generate_completion_law (agentReady : Bool) (query : String)
    (history0 : List HistMsg) (chunks : List Chunk) (budget timeoutSeconds : Nat)
    (h : (generate agentReady query history0 chunks budget timeoutSeconds).status
      = Status.completed) :
    ∃ evs acc, streamLoop ⟨[], []⟩ chunks budget = (evs, LoopExit.done acc) ∧
      (generate agentReady query history0 chunks budget timeoutSeconds).events
        = evs ∧
      (generate agentReady query history0 chunks budget timeoutSeconds).history
        = history0 ++ [⟨"user", query⟩]
          ++ (if String.join acc.text = "" then []
              else [⟨"assistant", String.join acc.text⟩])
          ++ (if String.join acc.tool = "" then []
              else [⟨"assistant_tool", String.join acc.tool⟩]) := by
  cases agentReady with
  | false => simp [generate] at h
  | true =>
    rcases hsl : streamLoop ⟨[], []⟩ chunks budget with ⟨evs, exit⟩
    cases exit with
    | done acc =>
      exact ⟨evs, acc, rfl, by simp [generate, hsl], by simp [generate, hsl]⟩
    | timeout => simp [generate, hsl] at h
    | exn e => simp [generate, hsl] at h

/-- C2 witness: a concrete completed run (a single text fragment "4") gains
exactly the `user` message and the `assistant` message, in that order. -/
theorem generate_completion_law_witness :
    (generate true "What is 2+2?" []
        [Chunk.agentMsgs [Msg.ai ⟨Content.str "4", none, none, none, none⟩]]
        1 120).status = Status.completed ∧
    (∃ evs acc,
      streamLoop ⟨[], []⟩
          [Chunk.agentMsgs [Msg.ai ⟨Content.str "4", none, none, none, none⟩]] 1
        = (evs, LoopExit.done acc) ∧
      (generate true "What is 2+2?" []
          [Chunk.agentMsgs [Msg.ai ⟨Content.str "4", none, none, none, none⟩]]
          1 120).events = evs ∧
      (generate true "What is 2+2?" []
          [Chunk.agentMsgs [Msg.ai ⟨Content.str "4", none, none, none, none⟩]]
          1 120).history
        = [] ++ [⟨"user", "What is 2+2?"⟩]
          ++ (if String.join acc.text = "" then []
              else [⟨"assistant", String.join acc.text⟩])
          ++ (if String.join acc.tool = "" then []
              else [⟨"assistant_tool", String.join acc.tool⟩])) :=
  ⟨rfl, generate_completion_law true "What is 2+2?" []
    [Chunk.agentMsgs [Msg.ai ⟨Content.str "4", none, none, none, none⟩]]
    1 120 rfl⟩

/-! ## C10: cumulative payloads are prefix-monotone -/

/-- The sequence of `TextDelta` payloads of an event list, in order. -/
def textPayloads (evs : List Event) : List String :=
  evs.filterMap fun e =>
    match e with
    | Event.textDelta p => some p
    | _ => none

/-- The sequence of `ToolDelta` payloads of an event list, in order. -/
def toolPayloads (evs : List Event) : List String :=
  evs.filterMap fun e =>
    match e with
    | Event.toolDelta p _ => some p
    | _ => none

/-- A ladder of strings starting at `s`: each element equals its predecessor
(`s` for the first) with a fragment appended. -/
def ladderFrom (s : String) : List String → Prop
  | [] => True
  | x :: xs => (∃ f, x = s ++ f) ∧ ladderFrom x xs

theorem join_append_one (l : List String) (s : String) :
    String.join (l ++ [s]) = String.join l ++ s := by
  simp [String.join, List.foldl_append]

/-- The last element of a list, or `d` if the list is empty. -/
def lastOr (d : String) : List String → String
  | [] => d
  | x :: xs => lastOr x xs

theorem lastOr_append (xs ys : List String) (d : String) :
    lastOr d (xs ++ ys) = lastOr (lastOr d xs) ys := by
  induction xs generalizing d with
  | nil => rfl
  | cons x xs ih => simpa [lastOr] using ih x

theorem ladderFrom_append {t0 t1 : String} {xs ys : List String}
    (hx : ladderFrom t0 xs) (hl : lastOr t0 xs = t1)
    (hy : ladderFrom t1 ys) : ladderFrom t0 (xs ++ ys) := by
  induction xs generalizing t0 with
  | nil =>
    have h : t0 = t1 := hl
    subst h
    simpa using hy
  | cons x xs ih =>
    obtain ⟨he, hx'⟩ := hx
    exact ⟨he, ih hx' hl⟩

theorem ladderFrom_chain' {s : String} {l : List String}
    (h : ladderFrom s l) : List.Chain' (fun a b => ∃ f, b = a ++ f) l := by
  induction l generalizing s with
  | nil => simp
  | cons x xs ih =>
    obtain ⟨_, hx⟩ := h
    cases xs with
    | nil => simp
    | cons y ys =>
      exact List.Chain'.cons (hx.1) (ih hx)

/-- Invariant of one reduction step that returns normally: emitted text
payloads ladder up from the joined text buffer before the step to the joined
text buffer after it, and likewise for tool payloads. -/
def StepOk (acc : Accum) (evs : List Event) (acc' : Accum) : Prop :=
  ladderFrom (String.join acc.text) (textPayloads evs) ∧
  lastOr (String.join acc.text) (textPayloads evs) = String.join acc'.text ∧
  ladderFrom (String.join acc.tool) (toolPayloads evs) ∧
  lastOr (String.join acc.tool) (toolPayloads evs) = String.join acc'.tool

/-- Weak invariant for a step that may end in an exception: emitted payloads
still ladder up from the buffers before the step. -/
def LadderOnly (acc : Accum) (evs : List Event) : Prop :=
  ladderFrom (String.join acc.text) (textPayloads evs) ∧
  ladderFrom (String.join acc.tool) (toolPayloads evs)

theorem stepOk_nil (acc : Accum) : StepOk acc [] acc :=
  ⟨trivial, rfl, trivial, rfl⟩

theorem textPayloads_append (a b : List Event) :
    textPayloads (a ++ b) = textPayloads a ++ textPayloads b := by
  simp [textPayloads]

theorem toolPayloads_append (a b : List Event) :
    toolPayloads (a ++ b) = toolPayloads a ++ toolPayloads b := by
  simp [toolPayloads]

theorem stepOk_trans {a b c : Accum} {evs evs' : List Event}
    (h1 : StepOk a evs b) (h2 : StepOk b evs' c) : StepOk a (evs ++ evs') c := by
  obtain ⟨ht1, hlt1, hu1, hlu1⟩ := h1
  obtain ⟨ht2, hlt2, hu2, hlu2⟩ := h2
  refine ⟨?_, ?_, ?_, ?_⟩
  · exact textPayloads_append evs evs' ▸ ladderFrom_append ht1 hlt1 ht2
  · rw [textPayloads_append, lastOr_append, hlt1, hlt2]
  · exact toolPayloads_append evs evs' ▸ ladderFrom_append hu1 hlu1 hu2
  · rw [toolPayloads_append, lastOr_append, hlu1, hlu2]

theorem stepOk_ladderOnly {a b : Accum} {evs : List Event}
    (h : StepOk a evs b) : LadderOnly a evs :=
  ⟨h.1, h.2.2.1⟩

theorem stepOk_trans_ladder {a b : Accum} {evs evs' : List Event}
    (h1 : StepOk a evs b) (h2 : LadderOnly b evs') : LadderOnly a (evs ++ evs') := by
  obtain ⟨ht1, hlt1, hu1, hlu1⟩ := h1
  obtain ⟨ht2, hu2⟩ := h2
  constructor
  · exact textPayloads_append evs evs' ▸ ladderFrom_append ht1 hlt1 ht2
  · exact toolPayloads_append evs evs' ▸ ladderFrom_append hu1 hlu1 hu2

/-- A single text emission steps the invariant. -/
theorem stepOk_pushText (acc : Accum) (s : String) :
    StepOk acc [Event.textDelta (String.join (acc.text ++ [s]))]
      { acc with text := acc.text ++ [s] } := by
  refine ⟨⟨⟨s, join_append_one acc.text s⟩, trivial⟩, ?_, trivial, rfl⟩
  simp [textPayloads, lastOr]

/-- A single tool emission steps the invariant. -/
theorem stepOk_pushTool (acc : Accum) (s : String) (lbl : Option String) :
    StepOk acc [Event.toolDelta (String.join (acc.tool ++ [s])) lbl]
      { acc with tool := acc.tool ++ [s] } := by
  refine ⟨trivial, rfl, ⟨⟨s, join_append_one acc.tool s⟩, trivial⟩, ?_⟩
  simp [toolPayloads, lastOr]

theorem stepOk_processItem (acc : Accum) (i : Item) :
    StepOk acc (processItem acc i).1 (processItem acc i).2 := by
  cases i with
  | text s => exact stepOk_pushText acc s
  | toolUse pj => exact stepOk_pushTool acc (toolFragment pj) none
  | other => exact stepOk_nil acc

theorem stepOk_processItems (l : List Item) :
    ∀ acc, StepOk acc (processItems acc l).1 (processItems acc l).2 := by
  induction l with
  | nil => intro acc; exact stepOk_nil acc
  | cons i is ih =>
    intro acc
    have h1 := stepOk_processItem acc i
    have h2 := ih (processItem acc i).2
    simpa [processItems] using stepOk_trans h1 h2

theorem stepOk_aiFallback_ok {acc acc' : Accum} {evs : List Event}
    {m : AIMsg} (h : aiFallback acc m = (evs, Except.ok acc')) :
    StepOk acc evs acc' := by
  unfold aiFallback aiFallback.aiFallback2 at h
  repeat' split at h
  all_goals rw [Prod.mk.injEq] at h
  all_goals obtain ⟨h1, h2⟩ := h
  all_goals
    first
    | exact Except.noConfusion h2
    | (injection h2 with h2; subst h1; subst h2;
        first
        | exact stepOk_pushTool acc _ _
        | exact stepOk_nil acc)

theorem aiFallback_err_nil {acc : Accum} {evs : List Event} {m : AIMsg}
    {e : String} (h : aiFallback acc m = (evs, Except.error e)) : evs = [] := by
  unfold aiFallback aiFallback.aiFallback2 at h
  repeat' split at h
  all_goals rw [Prod.mk.injEq] at h
  all_goals obtain ⟨h1, h2⟩ := h
  all_goals first | exact Except.noConfusion h2 | exact h1.symm

theorem stepOk_processMsg_ok {acc acc' : Accum} {evs : List Event} {m : Msg}
    (h : processMsg acc m = (evs, Except.ok acc')) : StepOk acc evs acc' := by
  cases m with
  | ai a =>
    obtain ⟨c, tcs, itcs, tccs, akw⟩ := a
    cases c with
    | str s =>
      simp only [processMsg] at h
      by_cases hs : s = ""
      · rw [if_pos hs] at h
        exact stepOk_aiFallback_ok h
      · rw [if_neg hs] at h
        rw [Prod.mk.injEq] at h
        obtain ⟨h1, h2⟩ := h
        injection h2 with h2
        subst h1; subst h2
        exact stepOk_pushText acc s
    | items l =>
      simp only [processMsg] at h
      by_cases hl : l = []
      · rw [if_pos hl] at h
        exact stepOk_aiFallback_ok h
      · rw [if_neg hl] at h
        rcases hpi : processItems acc l with ⟨evs0, acc0⟩
        rw [hpi] at h
        rw [Prod.mk.injEq] at h
        obtain ⟨h1, h2⟩ := h
        injection h2 with h2
        subst h1; subst h2
        have hs := stepOk_processItems l acc
        rwa [hpi] at hs
  | toolMsg c =>
    injection h with h1 h2
    injection h2 with h2
    subst h1; subst h2
    exact stepOk_pushTool acc (toolFragment c) (some "Tool Response")
  | other =>
    injection h with h1 h2
    injection h2 with h2
    subst h1; subst h2
    exact stepOk_nil acc

theorem processMsg_err_nil {acc : Accum} {evs : List Event} {m : Msg}
    {e : String} (h : processMsg acc m = (evs, Except.error e)) : evs = [] := by
  cases m with
  | ai a =>
    obtain ⟨c, tcs, itcs, tccs, akw⟩ := a
    cases c with
    | str s =>
      simp only [processMsg] at h
      by_cases hs : s = ""
      · rw [if_pos hs] at h; exact aiFallback_err_nil h
      · rw [if_neg hs] at h
        rw [Prod.mk.injEq] at h
        exact Except.noConfusion h.2
    | items l =>
      simp only [processMsg] at h
      by_cases hl : l = []
      · rw [if_pos hl] at h; exact aiFallback_err_nil h
      · rw [if_neg hl] at h
        rcases hpi : processItems acc l with ⟨evs', acc''⟩
        rw [hpi] at h
        rw [Prod.mk.injEq] at h
        exact Except.noConfusion h.2
  | toolMsg c =>
    rw [Prod.mk.injEq] at h
    exact Except.noConfusion h.2
  | other =>
    rw [Prod.mk.injEq] at h
    exact Except.noConfusion h.2

theorem stepOk_processMsgs_ok (ms : List Msg) :
    ∀ acc acc' evs, processMsgs acc ms = (evs, Except.ok acc') →
      StepOk acc evs acc' := by
  induction ms with
  | nil =>
    intro acc acc' evs h
    injection h with h1 h2
    injection h2 with h2
    subst h1; subst h2
    exact stepOk_nil acc
  | cons m ms ih =>
    intro acc acc' evs h
    rw [processMsgs] at h
    rcases hp : processMsg acc m with ⟨evs1, r⟩
    rw [hp] at h
    cases r with
    | error e => cases h
    | ok acc1 =>
      simp only at h
      rcases hq : processMsgs acc1 ms with ⟨evs2, r2⟩
      rw [hq] at h
      injection h with h1 h2
      subst h1; subst h2
      exact stepOk_trans (stepOk_processMsg_ok hp) (ih acc1 acc' evs2 hq)

theorem ladder_processMsgs_err (ms : List Msg) :
    ∀ acc evs e, processMsgs acc ms = (evs, Except.error e) →
      LadderOnly acc evs := by
  induction ms with
  | nil => intro acc evs e h; cases h
  | cons m ms ih =>
    intro acc evs e h
    rw [processMsgs] at h
    rcases hp : processMsg acc m with ⟨evs1, r⟩
    rw [hp] at h
    cases r with
    | error e1 =>
      injection h with h1 h2
      subst h1
      rw [processMsg_err_nil hp]
      exact ⟨trivial, trivial⟩
    | ok acc1 =>
      simp only at h
      rcases hq : processMsgs acc1 ms with ⟨evs2, r2⟩
      rw [hq] at h
      injection h with h1 h2
      subst h1
      cases r2 with
      | error e2 =>
        exact stepOk_trans_ladder (stepOk_processMsg_ok hp) (ih acc1 evs2 e2 hq)
      | ok a => cases h2

theorem stepOk_processChunk_ok {acc acc' : Accum} {evs : List Event}
    {c : Chunk} (h : processChunk acc c = (evs, Except.ok acc')) :
    StepOk acc evs acc' := by
  cases c with
  | agentMsgs msgs => exact stepOk_processMsgs_ok msgs acc acc' evs h
  | other =>
    injection h with h1 h2
    injection h2 with h2
    subst h1; subst h2
    exact stepOk_nil acc

theorem ladder_processChunk_err {acc : Accum} {evs : List Event} {c : Chunk}
    {e : String} (h : processChunk acc c = (evs, Except.error e)) :
    LadderOnly acc evs := by
  cases c with
  | agentMsgs msgs => exact ladder_processMsgs_err msgs acc evs e h
  | other => cases h

theorem ladder_streamLoop (chunks : List Chunk) :
    ∀ acc budget, LadderOnly acc (streamLoop acc chunks budget).1 := by
  induction chunks with
  | nil => intro acc budget; exact ⟨trivial, trivial⟩
  | cons c cs ih =>
    intro acc budget
    cases budget with
    | zero => exact ⟨trivial, trivial⟩
    | succ b =>
      rw [streamLoop]
      rcases hp : processChunk acc c with ⟨evs, r⟩
      cases r with
      | error e => exact ladder_processChunk_err hp
      | ok acc' =>
        simp only
        exact stepOk_trans_ladder (stepOk_processChunk_ok hp) (ih acc' b)

/-- C10: within one query execution, consecutive `TextDelta` payloads and
consecutive `ToolDelta` payloads are each prefix-monotone: every payload
equals the previous one of the same channel with a fragment appended,
because both are joins of append-only accumulator buffers. -/
theorem generate_payloads_monotone (agentReady : Bool) (query : String)
    (history0 : List HistMsg) (chunks : List Chunk)
    (budget timeoutSeconds : Nat) :
    List.Chain' (fun a b => ∃ f, b = a ++ f)
      (textPayloads
        (generate agentReady query history0 chunks budget timeoutSeconds).events) ∧
    List.Chain' (fun a b => ∃ f, b = a ++ f)
      (toolPayloads
        (generate agentReady query history0 chunks budget timeoutSeconds).events) := by
  cases agentReady with
  | false =>
    constructor <;> simp [generate, textPayloads, toolPayloads]
  | true =>
    have hl := ladder_streamLoop chunks ⟨[], []⟩ budget
    rcases hsl : streamLoop ⟨[], []⟩ chunks budget with ⟨evs, exit⟩
    rw [hsl] at hl
    obtain ⟨hlt, hlu⟩ := hl
    have htz : String.join (Accum.text ⟨[], []⟩) = "" := rfl
    have huz : String.join (Accum.tool ⟨[], []⟩) = "" := rfl
    rw [htz] at hlt
    rw [huz] at hlu
    cases exit with
    | done acc =>
      exact ⟨by simpa [generate, hsl] using ladderFrom_chain' hlt,
        by simpa [generate, hsl] using ladderFrom_chain' hlu⟩
    | timeout =>
      constructor
      · have : textPayloads (evs ++ [Event.error (timeoutMessage timeoutSeconds)])
            = textPayloads evs := by simp [textPayloads_append, textPayloads]
        simpa [generate, hsl, this] using ladderFrom_chain' hlt
      · have : toolPayloads (evs ++ [Event.error (timeoutMessage timeoutSeconds)])
            = toolPayloads evs := by simp [toolPayloads_append, toolPayloads]
        simpa [generate, hsl, this] using ladderFrom_chain' hlu
    | exn e =>
      constructor
      · have : textPayloads
            (evs ++ [Event.error ("Error occurred during query processing: " ++ e)])
            = textPayloads evs := by simp [textPayloads_append, textPayloads]
        simpa [generate, hsl, this] using ladderFrom_chain' hlt
      · have : toolPayloads
            (evs ++ [Event.error ("Error occurred during query processing: " ++ e)])
            = toolPayloads evs := by simp [toolPayloads_append, toolPayloads]
        simpa [generate, hsl, this] using ladderFrom_chain' hlu

/-! ## Tool registry client and tool materializer (app.py, initialize_agent) -/

/-- The default registry base URL (`TOOL_MARKET_URL`). -/
def TOOL_MARKET_URL : String :=
  "https://raw.githubusercontent.com/meghanshram/ToolMarket/main"

/-- A tool's transport as declared in its manifest (`"stdio"` or `"sse"`). -/
inductive Transport where
  | stdio
  | sse
  deriving DecidableEq

/-- A tool manifest as consumed by `initialize_agent`: `version`, `transport`,
`file` (the entry file), optional `dependencies` and optional `url`. -/
structure Manifest where
  version : String
  transport : Transport
  file : String
  dependencies : List String
  url : Option String
  deriving DecidableEq

/-- One entry of `config['tool_config']['tools']`: `name`, optional
`github_url` (registry base override) and optional `url` (user-supplied
remote URL for sse transport). -/
structure ToolRef where
  name : String
  github_url : Option String
  url : Option String
  deriving DecidableEq

/-- The remote world `initialize_agent` interacts with: manifest fetches
(`fetch_tool_manifest`), artifact downloads (`download_tool`, returning a
checksum) and dependency installation (`install_dependencies`, which raises
on failure).  `Except.error` models a raised exception. -/
structure World where
  fetch : String → String → Except String Manifest
  download : String → String → String → Except String String
  installOk : List String → Bool

/-- A normalized connection descriptor (`tool_config`): subprocess command +
args + env for stdio transport, or a URL for sse transport. -/
inductive ToolConfig where
  | stdio (name command : String) (args : List String)
      (env : List (String × String))
  | sse (name : String) (url : Option String)
  deriving DecidableEq

/-- File-system and persisted state threaded through materialization:
`files` is the content of the `temp_tools` staging area as `(tool, file)`
pairs, `versions` the persisted `tool_versions` table, and `downloads` the
log of artifact download attempts performed. -/
structure MatState where
  files : List (String × String)
  versions : List (String × String)
  downloads : List (String × String)
  deriving DecidableEq

/-- `tool_versions.get(tool_name)` on the association list. -/
def lookupV (l : List (String × String)) (k : String) : Option String :=
  (l.find? fun p => p.1 == k).map Prod.snd

/-- `tool_versions[tool_name] = v` on the association list. -/
def updateV (l : List (String × String)) (k v : String) :
    List (String × String) :=
  if l.any fun p => p.1 == k then
    l.map fun p => if p.1 == k then (k, v) else p
  else l ++ [(k, v)]

/-- The body of the `for tool in tools` loop of `initialize_agent`: fetch the
manifest (a failure is caught and the tool skipped), compare the manifest
version with the cached version and check artifact presence; on a mismatch or
a missing artifact, download + install for stdio transport (failures caught,
tool skipped, version updated only on full success) or build the sse
descriptor directly; otherwise reuse the cached artifact.  Returns the new
state and the descriptor appended to `updated_tools`, if any. -/
def processTool (w : World) (envVars : String → List (String × String))
    (st : MatState) (ref : ToolRef) : MatState × Option ToolConfig :=
  let gurl := ref.github_url.getD TOOL_MARKET_URL
  match w.fetch ref.name gurl with
  | Except.error _ => (st, none)
  | Except.ok manifest =>
    let cached := (lookupV st.versions ref.name).getD "0.0.0"
    if manifest.version ≠ cached ∨ (ref.name, manifest.file) ∉ st.files then
      match manifest.transport with
      | Transport.stdio =>
        let st1 := { st with
          downloads := st.downloads ++ [(ref.name, manifest.file)] }
        match w.download ref.name manifest.file gurl with
        | Except.error _ => (st1, none)
        | Except.ok _checksum =>
          let st2 := { st1 with
            files := st1.files ++ [(ref.name, manifest.file)] }
          if w.installOk manifest.dependencies then
            ({ st2 with
                versions := updateV st2.versions ref.name manifest.version },
              some (ToolConfig.stdio ref.name "python"
                ["temp_tools/" ++ ref.name ++ "/" ++ manifest.file]
                (envVars ref.name)))
          else (st2, none)
      | Transport.sse =>
        ({ st with versions := updateV st.versions ref.name manifest.version },
          some (ToolConfig.sse ref.name (ref.url <|> manifest.url)))
    else
      match manifest.transport with
      | Transport.stdio =>
        (st, some (ToolConfig.stdio ref.name "python"
          ["temp_tools/" ++ ref.name ++ "/" ++ manifest.file]
          (envVars ref.name)))
      | Transport.sse =>
        (st, some (ToolConfig.sse ref.name (ref.url <|> manifest.url)))

/-- The whole `for tool in tools` loop: skipped tools (`continue`) contribute
no descriptor; successful tools contribute theirs in order. -/
def materializeTools (w : World) (envVars : String → List (String × String)) :
    MatState → List ToolRef → MatState × List ToolConfig
  | st, [] => (st, [])
  | st, r :: rs =>
    match processTool w envVars st r with
    | (st', none) => materializeTools w envVars st' rs
    | (st', some c) =>
      let (st'', cs) := materializeTools w envVars st' rs
      (st'', c :: cs)

/-- Materialization as run by `initialize_agent`: the `temp_tools` staging
area is wiped (`shutil.rmtree`) before the loop starts. -/
def initMaterialize (w : World) (envVars : String → List (String × String))
    (st : MatState) (refs : List ToolRef) : MatState × List ToolConfig :=
  materializeTools w envVars { st with files := [] } refs

/-! ## C3: partial-failure isolation -/

/-- The ways processing one tool reference fails and is skipped: the
manifest fetch raises; or the refresh branch is taken for a stdio tool
(version mismatch or artifact missing) and the artifact download raises; or
the download succeeds and dependency installation raises. -/
def toolRefFails (w : World) (st : MatState) (ref : ToolRef) : Prop :=
  let gurl := ref.github_url.getD TOOL_MARKET_URL
  (∃ e, w.fetch ref.name gurl = Except.error e) ∨
  (∃ m, w.fetch ref.name gurl = Except.ok m ∧
    m.transport = Transport.stdio ∧
    (m.version ≠ (lookupV st.versions ref.name).getD "0.0.0" ∨
      (ref.name, m.file) ∉ st.files) ∧
    ((∃ e, w.download ref.name m.file gurl = Except.error e) ∨
      ((∃ ck, w.download ref.name m.file gurl = Except.ok ck) ∧
        w.installOk m.dependencies = false)))

/-- Processing one reference yields no descriptor exactly on a fetch,
download or install failure; in every such case the loop returns normally
(`continue`), no exception escapes. -/
theorem processTool_skip_iff (w : World)
    (envVars : String → List (String × String)) (s : MatState)
    (bad : ToolRef) :
    (processTool w envVars s bad).2 = none ↔ toolRefFails w s bad := by
  constructor
  · intro h
    rcases hf : w.fetch bad.name (bad.github_url.getD TOOL_MARKET_URL)
      with e | m
    · exact Or.inl ⟨e, hf⟩
    · simp only [processTool, hf] at h
      by_cases hcond : m.version ≠ (lookupV s.versions bad.name).getD "0.0.0"
        ∨ (bad.name, m.file) ∉ s.files
      · rw [if_pos hcond] at h
        rcases ht : m.transport
        · rw [ht] at h
          simp only at h
          rcases hdw : w.download bad.name m.file
              (bad.github_url.getD TOOL_MARKET_URL) with e1 | ck
          · exact Or.inr ⟨m, hf, ht, hcond, Or.inl ⟨e1, hdw⟩⟩
          · rw [hdw] at h
            simp only at h
            by_cases hio : w.installOk m.dependencies = true
            · rw [if_pos hio] at h
              simp at h
            · exact Or.inr ⟨m, hf, ht, hcond,
                Or.inr ⟨⟨ck, hdw⟩, eq_false_of_ne_true hio⟩⟩
        · rw [ht] at h
          simp at h
      · rw [if_neg hcond] at h
        rcases ht : m.transport <;> rw [ht] at h <;> simp at h
  · intro hfail
    rcases hfail with ⟨e, hf⟩ | ⟨m, hf, ht, hcond, hrest⟩
    · simp [processTool, hf]
    · simp only [processTool, hf]
      rw [if_pos hcond, ht]
      simp only
      rcases hrest with ⟨e1, hdw⟩ | ⟨⟨ck, hdw⟩, hio⟩
      · rw [hdw]
      · rw [hdw]
        simp only
        rw [if_neg (by rw [hio]; exact Bool.false_ne_true)]

/-- Splitting a materialization run at a list boundary: the second half runs
from the state the first half produced, and the descriptor lists
concatenate. -/
theorem materializeTools_append (w : World)
    (envVars : String → List (String × String)) (l1 l2 : List ToolRef) :
    ∀ st : MatState,
      materializeTools w envVars st (l1 ++ l2)
        = ((materializeTools w envVars
              (materializeTools w envVars st l1).1 l2).1,
           (materializeTools w envVars st l1).2
             ++ (materializeTools w envVars
                  (materializeTools w envVars st l1).1 l2).2) := by
  induction l1 with
  | nil => intro st; rfl
  | cons r rs ih =>
    intro st
    rw [List.cons_append]
    rw [materializeTools]
    rw [materializeTools]
    rcases hp : processTool w envVars st r with ⟨st', c?⟩
    cases c? with
    | none =>
      simp only
      exact ih st'
    | some c =>
      simp only
      rw [ih st']
      simp

/-- A reference whose manifest fetch fails is a complete no-op: the run over
the full list equals (state and descriptors) the run without it. -/
theorem materializeTools_fetch_err_drop (w : World)
    (envVars : String → List (String × String)) (st : MatState)
    (l1 l2 : List ToolRef) (bad : ToolRef) (e : String)
    (hbad : w.fetch bad.name (bad.github_url.getD TOOL_MARKET_URL)
      = Except.error e) :
    materializeTools w envVars st (l1 ++ bad :: l2)
      = materializeTools w envVars st (l1 ++ l2) := by
  induction l1 generalizing st with
  | nil =>
    show materializeTools w envVars st (bad :: l2)
      = materializeTools w envVars st l2
    rw [materializeTools, processTool]
    rw [hbad]
  | cons r rs ih =>
    show materializeTools w envVars st (r :: (rs ++ bad :: l2))
      = materializeTools w envVars st (r :: (rs ++ l2))
    rw [materializeTools, materializeTools]
    rcases hp : processTool w envVars st r with ⟨st', c?⟩
    cases c? <;> simp only [ih]

/-- C3: (i) a reference is skipped — yields no descriptor, with the loop
returning normally — exactly when its manifest fetch, artifact download or
dependency installation fails; (ii) a skipped reference does not block the
batch: the descriptors of the full run are those of the references before it
followed by those of the references after it (run from the post-skip state),
so every remaining reference that succeeds still yields its descriptor; and
(iii) a fetch-failing reference is a complete no-op for the run. -/
theorem materialize_partial_failure (w : World)
    (envVars : String → List (String × String)) (st : MatState)
    (l1 l2 : List ToolRef) (bad : ToolRef) :
    (∀ s : MatState,
      (processTool w envVars s bad).2 = none ↔ toolRefFails w s bad) ∧
    ((processTool w envVars (materializeTools w envVars st l1).1 bad).2 = none →
      (materializeTools w envVars st (l1 ++ bad :: l2)).2
        = (materializeTools w envVars st l1).2
          ++ (materializeTools w envVars
                (processTool w envVars
                  (materializeTools w envVars st l1).1 bad).1 l2).2) ∧
    (∀ e, w.fetch bad.name (bad.github_url.getD TOOL_MARKET_URL)
        = Except.error e →
      materializeTools w envVars st (l1 ++ bad :: l2)
        = materializeTools w envVars st (l1 ++ l2)) := by
  refine ⟨fun s => processTool_skip_iff w envVars s bad, ?_, ?_⟩
  · intro hskip
    rcases hps : processTool w envVars (materializeTools w envVars st l1).1 bad
      with ⟨stb, cb⟩
    have hcb : cb = none := by rw [hps] at hskip; exact hskip
    subst hcb
    rw [materializeTools_append w envVars l1 (bad :: l2) st]
    simp only
    rw [materializeTools, hps]
  · intro e hbad
    exact materializeTools_fetch_err_drop w envVars st l1 l2 bad e hbad

/-- The world used by the concrete materializer runs: tool "weather" has a
failing manifest fetch, tool "clock" is a healthy stdio tool at version
1.0.0. -/
def w1 : World where
  fetch := fun n _ =>
    if n = "weather" then Except.error "HTTP 404"
    else Except.ok ⟨"1.0.0", Transport.stdio, "clock.py", [], none⟩
  download := fun _ _ _ => Except.ok "cafebabe"
  installOk := fun _ => true

/-- Empty per-tool environment-variable table. -/
def env0 : String → List (String × String) := fun _ => []

/-- The reference to the healthy concrete tool. -/
def refClock : ToolRef := ⟨"clock", none, none⟩

/-- The reference to the tool with the failing manifest fetch. -/
def refWeather : ToolRef := ⟨"weather", none, none⟩

/-- A world whose manifest fetches succeed (stdio tool at version 2.0.0) but
whose artifact downloads all raise: the download-failure mode of C3. -/
def w2 : World where
  fetch := fun _ _ =>
    Except.ok ⟨"2.0.0", Transport.stdio, "net.py", [], none⟩
  download := fun _ _ _ => Except.error "connection reset"
  installOk := fun _ => true

/-- C3 witness: concrete instances of all three parts.  With the failing
fetch for "weather", the skipped reference contributes nothing and "clock"
still yields its descriptor; with the failing download of `w2`, the
skip-characterization identifies the download failure, and the reference is
indeed skipped. -/
theorem materialize_partial_failure_witness :
    ((processTool w1 env0 (materializeTools w1 env0 ⟨[], [], []⟩ []).1
        refWeather).2 = none) ∧
    ((materializeTools w1 env0 ⟨[], [], []⟩ ([] ++ refWeather :: [refClock])).2
      = (materializeTools w1 env0 ⟨[], [], []⟩ []).2
        ++ (materializeTools w1 env0
              (processTool w1 env0 (materializeTools w1 env0 ⟨[], [], []⟩ []).1
                refWeather).1 [refClock]).2) ∧
    ((processTool w1 env0 ⟨[], [], []⟩ refWeather).2 = none
      ↔ toolRefFails w1 ⟨[], [], []⟩ refWeather) ∧
    (w1.fetch refWeather.name (refWeather.github_url.getD TOOL_MARKET_URL)
      = Except.error "HTTP 404") ∧
    (materializeTools w1 env0 ⟨[], [], []⟩ ([] ++ refWeather :: [refClock])
      = materializeTools w1 env0 ⟨[], [], []⟩ ([] ++ [refClock])) ∧
    ((processTool w2 env0 ⟨[], [], []⟩ refClock).2 = none
      ↔ toolRefFails w2 ⟨[], [], []⟩ refClock) ∧
    ((processTool w2 env0 ⟨[], [], []⟩ refClock).2 = none) :=
  ⟨rfl,
   (materialize_partial_failure w1 env0 ⟨[], [], []⟩ [] [refClock]
     refWeather).2.1 rfl,
   (materialize_partial_failure w1 env0 ⟨[], [], []⟩ [] [refClock]
     refWeather).1 ⟨[], [], []⟩,
   rfl,
   (materialize_partial_failure w1 env0 ⟨[], [], []⟩ [] [refClock]
     refWeather).2.2 "HTTP 404" rfl,
   (materialize_partial_failure w2 env0 ⟨[], [], []⟩ [] [] refClock).1
     ⟨[], [], []⟩,
   rfl⟩

/-! ## C6: idempotence of materialization (defeated by the staging clear) -/

/-- The download attempt a single reference causes in a run whose staging
area does not yet hold its artifact: stdio tools with a successful fetch are
downloaded, sse tools and failed fetches are not. -/
def dlOf (w : World) (r : ToolRef) : Option (String × String) :=
  match w.fetch r.name (r.github_url.getD TOOL_MARKET_URL) with
  | Except.ok m =>
    if m.transport = Transport.stdio then some (r.name, m.file) else none
  | Except.error _ => none

theorem processTool_files_mem (w : World)
    (envVars : String → List (String × String)) (st : MatState)
    (ref : ToolRef) :
    ∀ p ∈ (processTool w envVars st ref).1.files,
      p ∈ st.files ∨ p.1 = ref.name := by
  intro p hp
  rcases hf : w.fetch ref.name (ref.github_url.getD TOOL_MARKET_URL)
    with e | m
  · simp only [processTool, hf] at hp
    exact Or.inl hp
  · simp only [processTool, hf] at hp
    by_cases hc : m.version ≠ (lookupV st.versions ref.name).getD "0.0.0"
      ∨ (ref.name, m.file) ∉ st.files
    · rw [if_pos hc] at hp
      rcases ht : m.transport
      · rw [ht] at hp
        rcases hdw : w.download ref.name m.file
            (ref.github_url.getD TOOL_MARKET_URL) with e1 | ck
        · rw [hdw] at hp
          exact Or.inl hp
        · rw [hdw] at hp
          by_cases hio : w.installOk m.dependencies = true
          · rw [if_pos hio] at hp
            simp only at hp
            rcases List.mem_append.mp hp with h | h
            · exact Or.inl h
            · rw [List.mem_singleton] at h
              rw [h]
              exact Or.inr rfl
          · rw [if_neg hio] at hp
            simp only at hp
            rcases List.mem_append.mp hp with h | h
            · exact Or.inl h
            · rw [List.mem_singleton] at h
              rw [h]
              exact Or.inr rfl
      · rw [ht] at hp
        exact Or.inl hp
    · rw [if_neg hc] at hp
      rcases ht : m.transport <;> rw [ht] at hp <;> exact Or.inl hp

theorem processTool_downloads (w : World)
    (envVars : String → List (String × String)) (st : MatState)
    (ref : ToolRef)
    (hmiss : ∀ m, w.fetch ref.name (ref.github_url.getD TOOL_MARKET_URL)
      = Except.ok m → (ref.name, m.file) ∉ st.files) :
    (processTool w envVars st ref).1.downloads
      = st.downloads ++ (dlOf w ref).toList := by
  rcases hf : w.fetch ref.name (ref.github_url.getD TOOL_MARKET_URL)
    with e | m
  · simp [processTool, dlOf, hf]
  · have hc : m.version ≠ (lookupV st.versions ref.name).getD "0.0.0"
        ∨ (ref.name, m.file) ∉ st.files := Or.inr (hmiss m hf)
    rcases ht : m.transport
    · simp only [processTool, hf, if_pos hc, ht, dlOf, Option.toList]
      rcases hdw : w.download ref.name m.file
          (ref.github_url.getD TOOL_MARKET_URL) with e1 | ck
      · simp
      · by_cases hio : w.installOk m.dependencies = true <;> simp [hio]
    · simp [processTool, hf, if_pos hc, ht, dlOf, Option.toList]

theorem materialize_downloads_run (w : World)
    (envVars : String → List (String × String)) (refs : List ToolRef) :
    ∀ st : MatState,
      (∀ p ∈ st.files, p.1 ∉ refs.map ToolRef.name) →
      (refs.map ToolRef.name).Nodup →
      (materializeTools w envVars st refs).1.downloads
        = st.downloads ++ refs.filterMap (dlOf w) := by
  induction refs with
  | nil => intro st _ _; simp [materializeTools]
  | cons r rs ih =>
    intro st hfiles hnd
    rcases hp : processTool w envVars st r with ⟨st', c?⟩
    rw [materializeTools, hp]
    have hmiss : ∀ m, w.fetch r.name (r.github_url.getD TOOL_MARKET_URL)
        = Except.ok m → (r.name, m.file) ∉ st.files := by
      intro m _ hmem
      exact hfiles _ hmem (by simp)
    have hdl : st'.downloads = st.downloads ++ (dlOf w r).toList := by
      have h := processTool_downloads w envVars st r hmiss
      rw [hp] at h
      exact h
    have hnd1 : r.name ∉ rs.map ToolRef.name := by
      rw [List.map_cons, List.nodup_cons] at hnd
      exact hnd.1
    have hnd' : (rs.map ToolRef.name).Nodup := by
      rw [List.map_cons, List.nodup_cons] at hnd
      exact hnd.2
    have hfiles' : ∀ p ∈ st'.files, p.1 ∉ rs.map ToolRef.name := by
      intro p hpmem
      have hm := processTool_files_mem w envVars st r p (by rw [hp]; exact hpmem)
      rcases hm with h | h
      · intro hin
        exact hfiles p h (List.mem_cons_of_mem _ hin)
      · rw [h]
        exact hnd1
    have hsplit : (r :: rs).filterMap (dlOf w)
        = (dlOf w r).toList ++ rs.filterMap (dlOf w) := by
      rcases hd : dlOf w r with _ | x <;> simp [List.filterMap_cons, hd]
    cases c? with
    | none =>
      simp only
      rw [ih st' hfiles' hnd', hdl, hsplit, List.append_assoc]
    | some c =>
      simp only
      rcases hm : materializeTools w envVars st' rs with ⟨st'', cs⟩
      show st''.downloads = st.downloads ++ List.filterMap (dlOf w) (r :: rs)
      have h2 := ih st' hfiles' hnd'
      rw [hm] at h2
      simp only at h2
      rw [h2, hdl, hsplit, List.append_assoc]

/-- C6 counterexample: one healthy stdio tool, materialized from scratch;
after the first run the cached version equals the manifest version and the
artifact is present locally, yet a second run on the unchanged configuration
performs a download again (the staging clear precedes the presence check). -/
theorem initMaterialize_not_idempotent :
    (initMaterialize w1 env0 ⟨[], [], []⟩ [refClock]).1.versions
        = [("clock", "1.0.0")] ∧
    (initMaterialize w1 env0 ⟨[], [], []⟩ [refClock]).1.files
        = [("clock", "clock.py")] ∧
    (initMaterialize w1 env0
        ⟨(initMaterialize w1 env0 ⟨[], [], []⟩ [refClock]).1.files,
          (initMaterialize w1 env0 ⟨[], [], []⟩ [refClock]).1.versions,
          []⟩ [refClock]).1.downloads
      = [("clock", "clock.py")] :=
  ⟨rfl, rfl, rfl⟩

/-- C6 amended: because `initialize_agent` wipes the staging area before the
version/presence check, a materialization run downloads exactly the
subprocess-transport tools whose manifest fetch succeeds, regardless of the
cached version table and of the artifacts present beforehand; in particular
the second run on an unchanged configuration re-downloads every subprocess
tool, and only remote (sse) tools are never re-downloaded. -/
theorem initMaterialize_downloads_every_stdio (w : World)
    (envVars : String → List (String × String))
    (files versions : List (String × String)) (refs : List ToolRef)
    (hnd : (refs.map ToolRef.name).Nodup) :
    (initMaterialize w envVars ⟨files, versions, []⟩ refs).1.downloads
      = refs.filterMap (dlOf w) := by
  unfold initMaterialize
  have h := materialize_downloads_run w envVars refs ⟨[], versions, []⟩
    (by intro p hp; simp at hp) hnd
  simpa using h

/-- C6 amended witness: the concrete second run of the counterexample
configuration (distinct tool names) downloads exactly its stdio tool. -/
theorem initMaterialize_downloads_every_stdio_witness :
    ((([refClock] : List ToolRef).map ToolRef.name).Nodup) ∧
    (initMaterialize w1 env0
        ⟨[("clock", "clock.py")], [("clock", "1.0.0")], []⟩ [refClock]).1.downloads
      = [refClock].filterMap (dlOf w1) :=
  ⟨by simp, initMaterialize_downloads_every_stdio w1 env0
    [("clock", "clock.py")] [("clock", "1.0.0")] [refClock] (by simp)⟩

/-! ## Agent builder (models/agent.py, create_agent; app.py, initialize_agent) -/

/-- A constructed language-model backend: `ChatAnthropic(model, ...,
max_tokens=8192)` or `ChatOpenAI(model, ..., max_tokens=16000)`. -/
inductive Backend where
  | anthropic (model : String) (max_tokens : Nat)
  | openai (model : String) (max_tokens : Nat)
  deriving DecidableEq

/-- Which backend family a backend belongs to. -/
inductive BackendKind where
  | anthropic
  | openai
  deriving DecidableEq

/-- The family of a constructed backend. -/
def Backend.kind : Backend → BackendKind
  | Backend.anthropic _ _ => BackendKind.anthropic
  | Backend.openai _ _ => BackendKind.openai

/-- Python's `s.startswith(pre)`, modelled on the character list so that it
evaluates in the kernel. -/
def startswith (s pre : String) : Bool :=
  pre.data.isPrefixOf s.data

/-- Model selection of `create_agent`:
`if selected_model.startswith('claude')` construct `ChatAnthropic`, `else`
construct `ChatOpenAI` (neither constructor validates the model id). -/
def selectModel (selected_model : String) : Backend :=
  if startswith selected_model "claude" then
    Backend.anthropic selected_model 8192
  else Backend.openai selected_model 16000

/-- The handle returned by `create_agent`: the bound tool capabilities
(`agent.get_tools()`), the MCP client stored for cleanup (`agent._client`,
identified by an opaque id, `none` when no MCP client was opened), the model
backend and the system prompt. -/
structure AgentHandle where
  tools : List String
  client : Option Nat
  model : Backend
  prompt : String
  deriving DecidableEq

/-- `create_agent(mcp_config, selected_model, checkpointer, prompt,
use_mcp)`: with `use_mcp=False` no MCP client is opened and the tool list is
empty; otherwise the client is entered and its tools enumerated
(`clientTools`, an oracle for `MultiServerMCPClient(...).get_tools()`, whose
failure propagates), then the backend is selected and the handle built. -/
def create_agent (mcp_config : List ToolConfig) (selected_model prompt : String)
    (use_mcp : Bool) (clientTools : Except String (List String))
    (clientId : Nat) : Except String AgentHandle :=
  if use_mcp = false then
    Except.ok
      { tools := [], client := none,
        model := selectModel selected_model, prompt := prompt }
  else
    match clientTools with
    | Except.error e => Except.error e
    | Except.ok ts =>
      Except.ok
        { tools := ts, client := some clientId,
          model := selectModel selected_model, prompt := prompt }

/-- Process-wide application state: the global `agent` variable and a log of
the MCP-client ids whose connections have been released
(`await client.__aexit__(...)`). -/
structure AppState where
  agent : Option AgentHandle
  releaseLog : List Nat
  deriving DecidableEq

/-- The system prompt constant of app.py. -/
def SYSTEM_PROMPT : String :=
  "<ROLE>You are a smart agent with an ability to use tools... (same as Streamlit app) ... </OUTPUT_FORMAT>"

/-- `initialize_agent(user_id)` (app.py lines 140-250): build the updated
prompt, wipe the staging area and materialize the tools, persist the updated
version table, then build the agent (`use_mcp` false iff no descriptor
survived) and overwrite the global `agent` variable.  The previous handle is
not touched: nothing is appended to the release log.  On a build failure the
exception is re-raised and the global `agent` is left unchanged. -/
def initialize_agent (w : World)
    (envVars : String → List (String × String)) (app : AppState)
    (st : MatState) (refs : List ToolRef) (selected_model instructions : String)
    (clientTools : Except String (List String)) (clientId : Nat) :
    MatState × List ToolConfig × Except String AppState :=
  let updated_prompt :=
    if instructions = "" then SYSTEM_PROMPT
    else SYSTEM_PROMPT ++ "\n\n" ++ instructions
  let res := initMaterialize w envVars st refs
  match create_agent res.2 selected_model updated_prompt (!res.2.isEmpty)
      clientTools clientId with
  | Except.error e => (res.1, res.2, Except.error e)
  | Except.ok h => (res.1, res.2, Except.ok { app with agent := some h })

/-- The `after_serving` shutdown hook: close the current handle's MCP client
if present, then drop the global reference. -/
def shutdown (app : AppState) : AppState :=
  match app.agent with
  | some h =>
    { agent := none,
      releaseLog := app.releaseLog ++
        (match h.client with
         | some c => [c]
         | none => []) }
  | none => { agent := none, releaseLog := app.releaseLog }

/-! ## C4: tool-free mode -/

/-- C4: with zero tool references nothing is materialized, the agent build
succeeds for every model id and prompt, and the resulting handle has an
empty capability set: tool-free mode is never an error. -/
theorem tool_free_mode_ok (w : World)
    (envVars : String → List (String × String)) (app : AppState)
    (st : MatState) (selected_model instructions : String)
    (clientTools : Except String (List String)) (clientId : Nat) :
    (initialize_agent w envVars app st [] selected_model instructions
        clientTools clientId).2.1 = [] ∧
    ∃ h : AgentHandle,
      (initialize_agent w envVars app st [] selected_model instructions
          clientTools clientId).2.2
        = Except.ok { app with agent := some h } ∧
      h.tools = [] := by
  refine ⟨rfl, ⟨[], none, selectModel selected_model,
    if instructions = "" then SYSTEM_PROMPT
    else SYSTEM_PROMPT ++ "\n\n" ++ instructions⟩, rfl, rfl⟩

/-! ## C5: model selection -/

/-- C5 counterexample: the unknown model-id family "mistral-7b" does not
make the build fail fast; `create_agent` silently constructs the OpenAI
backend and succeeds. -/
theorem unknown_model_family_silently_defaults :
    create_agent [] "mistral-7b" "p" false (Except.ok []) 0
      = Except.ok
          { tools := [], client := none,
            model := Backend.openai "mistral-7b" 16000, prompt := "p" } := rfl

/-- C5 amended: model selection is a pure function of whether the identifier
starts with "claude" (identifiers with the same claude-prefix test select
the same backend family); identifiers not starting with "claude" are mapped
to the OpenAI backend constructor, and the build does not fail on an unknown
model-id family. -/
theorem model_selection_prefix_pure (m1 m2 : String)
    (hpre : startswith m1 "claude" = startswith m2 "claude") :
    (selectModel m1).kind = (selectModel m2).kind ∧
    (startswith m1 "claude" = true →
      selectModel m1 = Backend.anthropic m1 8192) ∧
    (startswith m1 "claude" = false →
      selectModel m1 = Backend.openai m1 16000) ∧
    ∀ p : String, ∀ ct : Except String (List String), ∀ cid : Nat,
      ∃ h : AgentHandle,
        create_agent [] m1 p false ct cid = Except.ok h ∧
        h.model = selectModel m1 := by
  refine ⟨?_, ?_, ?_, ?_⟩
  · rw [selectModel, selectModel, ← hpre]
    by_cases h1 : startswith m1 "claude" = true
    · rw [if_pos h1, if_pos h1]
      rfl
    · rw [if_neg h1, if_neg h1]
      rfl
  · intro htrue
    rw [selectModel, if_pos htrue]
  · intro hfalse
    rw [selectModel, if_neg (by rw [hfalse]; exact Bool.false_ne_true)]
  · intro p ct cid
    exact ⟨{ tools := [], client := none, model := selectModel m1,
             prompt := p }, rfl, rfl⟩

/-- C5 amended witness: two concrete non-claude identifiers select the same
(OpenAI) backend family and build without error, and two concrete
claude-prefixed identifiers select the Anthropic backend. -/
theorem model_selection_prefix_pure_witness :
    (startswith "gpt-4o" "claude" = startswith "mistral-7b" "claude") ∧
    ((selectModel "gpt-4o").kind = (selectModel "mistral-7b").kind ∧
      (startswith "gpt-4o" "claude" = true →
        selectModel "gpt-4o" = Backend.anthropic "gpt-4o" 8192) ∧
      (startswith "gpt-4o" "claude" = false →
        selectModel "gpt-4o" = Backend.openai "gpt-4o" 16000) ∧
      ∀ p : String, ∀ ct : Except String (List String), ∀ cid : Nat,
        ∃ h : AgentHandle,
          create_agent [] "gpt-4o" p false ct cid = Except.ok h ∧
          h.model = selectModel "gpt-4o") ∧
    (startswith "claude-3-5-sonnet-latest" "claude"
      = startswith "claude-3-7-sonnet-latest" "claude") ∧
    ((selectModel "claude-3-5-sonnet-latest").kind
        = (selectModel "claude-3-7-sonnet-latest").kind ∧
      (startswith "claude-3-5-sonnet-latest" "claude" = true →
        selectModel "claude-3-5-sonnet-latest"
          = Backend.anthropic "claude-3-5-sonnet-latest" 8192) ∧
      (startswith "claude-3-5-sonnet-latest" "claude" = false →
        selectModel "claude-3-5-sonnet-latest"
          = Backend.openai "claude-3-5-sonnet-latest" 16000) ∧
      ∀ p : String, ∀ ct : Except String (List String), ∀ cid : Nat,
        ∃ h : AgentHandle,
          create_agent [] "claude-3-5-sonnet-latest" p false ct cid
            = Except.ok h ∧
          h.model = selectModel "claude-3-5-sonnet-latest") :=
  ⟨by decide, model_selection_prefix_pure "gpt-4o" "mistral-7b" (by decide),
   by decide, model_selection_prefix_pure "claude-3-5-sonnet-latest"
     "claude-3-7-sonnet-latest" (by decide)⟩

/-! ## C7: agent-handle replacement ordering -/

/-- The handle built by the concrete rebuild runs (MCP client id `i`). -/
def clockHandle (i : Nat) : AgentHandle :=
  { tools := ["get_time"], client := some i,
    model := Backend.openai "gpt-4o" 16000, prompt := SYSTEM_PROMPT }

/-- C7 counterexample: a concrete rebuild.  The first initialization
installs a handle holding MCP client 1; re-running `initialize_agent`
installs the new handle (client 2) while the release log stays empty: the
old handle's connections are abandoned, not released before the reference is
dropped. -/
theorem agent_replacement_abandons_connections :
    (initialize_agent w1 env0 ⟨none, []⟩ ⟨[], [], []⟩ [refClock] "gpt-4o" ""
        (Except.ok ["get_time"]) 1).2.2
      = Except.ok { agent := some (clockHandle 1), releaseLog := [] } ∧
    (initialize_agent w1 env0 { agent := some (clockHandle 1), releaseLog := [] }
        ⟨[], [], []⟩ [refClock] "gpt-4o" "" (Except.ok ["get_time"]) 2).2.2
      = Except.ok { agent := some (clockHandle 2), releaseLog := [] } :=
  ⟨rfl, rfl⟩

/-- C7 amended: rebuilding the process-wide agent handle overwrites the
reference without releasing the previous handle's connections (the release
log is unchanged by `initialize_agent`); connections are released only by
the shutdown hook, which closes the then-current handle's client. -/
theorem initialize_agent_releases_nothing (w : World)
    (envVars : String → List (String × String)) (app : AppState)
    (st : MatState) (refs : List ToolRef) (selected_model instructions : String)
    (clientTools : Except String (List String)) (clientId : Nat)
    (app' : AppState)
    (h : (initialize_agent w envVars app st refs selected_model instructions
        clientTools clientId).2.2 = Except.ok app') :
    app'.releaseLog = app.releaseLog ∧
    (∃ hnew : AgentHandle, app'.agent = some hnew) ∧
    (shutdown app').releaseLog
      = app.releaseLog ++
        (match app'.agent with
         | some hnew =>
           (match hnew.client with
            | some c => [c]
            | none => [])
         | none => []) := by
  simp only [initialize_agent] at h
  rcases hca : create_agent (initMaterialize w envVars st refs).2 selected_model
      (if instructions = "" then SYSTEM_PROMPT
       else SYSTEM_PROMPT ++ "\n\n" ++ instructions)
      (!(initMaterialize w envVars st refs).2.isEmpty) clientTools clientId
    with e | hd
  · rw [hca] at h
    exact Except.noConfusion h
  · rw [hca] at h
    simp only at h
    injection h with h
    subst h
    exact ⟨rfl, ⟨hd, rfl⟩, rfl⟩

/-- C7 amended witness: the concrete rebuild run satisfies the hypothesis
and the conclusion of the amended replacement law. -/
theorem initialize_agent_releases_nothing_witness :
    ((initialize_agent w1 env0 { agent := some (clockHandle 1), releaseLog := [] }
        ⟨[], [], []⟩ [refClock] "gpt-4o" "" (Except.ok ["get_time"]) 2).2.2
      = Except.ok { agent := some (clockHandle 2), releaseLog := [] }) ∧
    ({ agent := some (clockHandle 2), releaseLog := ([] : List Nat) } :
        AppState).releaseLog
      = ({ agent := some (clockHandle 1), releaseLog := ([] : List Nat) } :
        AppState).releaseLog ∧
    (∃ hnew : AgentHandle,
      ({ agent := some (clockHandle 2), releaseLog := ([] : List Nat) } :
        AppState).agent = some hnew) ∧
    (shutdown { agent := some (clockHandle 2), releaseLog := [] }).releaseLog
      = ({ agent := some (clockHandle 1), releaseLog := ([] : List Nat) } :
          AppState).releaseLog ++
        (match ({ agent := some (clockHandle 2), releaseLog := ([] : List Nat) } :
            AppState).agent with
         | some hnew =>
           (match hnew.client with
            | some c => [c]
            | none => [])
         | none => []) :=
  ⟨rfl, initialize_agent_releases_nothing w1 env0
    { agent := some (clockHandle 1), releaseLog := [] } ⟨[], [], []⟩ [refClock]
    "gpt-4o" "" (Except.ok ["get_time"]) 2
    { agent := some (clockHandle 2), releaseLog := [] } rfl⟩

/-! ## C9: registry fetch error taxonomy (app.py, fetch_tool_manifest) -/

/-- Outcome of the HTTP GET performed by `fetch_tool_manifest`: either the
request raised a `RequestException` (network failure), or a response arrived
with a status code and a body whose JSON parse succeeds as a manifest or
fails (`response.json()` raises `requests.exceptions.JSONDecodeError`, a
`RequestException`, on malformed JSON). -/
inductive HttpOutcome where
  | netError (e : String)
  | response (status : Nat) (body : Except String Manifest)

/-- `fetch_tool_manifest(tool_name, github_url)`: the body is parsed first
(the `print(response.json())` call), then `response.raise_for_status()`
raises `HTTPError` for 4xx/5xx, then the parsed JSON is returned for status
200, and any other status raises a plain exception.  Every
`RequestException` is caught and re-raised as the wrapped
`Failed to fetch manifest for ...` error; the plain "Unexpected status code"
exception propagates as raised. -/
def fetch_tool_manifest (tool_name : String) (r : HttpOutcome) :
    Except String Manifest :=
  match r with
  | HttpOutcome.netError e =>
    Except.error ("Failed to fetch manifest for " ++ tool_name ++ ": " ++ e)
  | HttpOutcome.response status body =>
    match body with
    | Except.error e =>
      Except.error ("Failed to fetch manifest for " ++ tool_name ++ ": " ++ e)
    | Except.ok m =>
      if 400 ≤ status ∧ status < 600 then
        Except.error ("Failed to fetch manifest for " ++ tool_name
          ++ ": HTTP error " ++ toString status)
      else if status = 200 then Except.ok m
      else
        Except.error ("Unexpected status code " ++ toString status
          ++ " when fetching manifest for " ++ tool_name)

/-- C9: `fetch_tool_manifest` returns a parsed manifest exactly when the
request produced an HTTP 200 response with a well-formed JSON body (and then
it returns that manifest); in every other case — network failure, non-200
status, malformed JSON — it fails with a raised error. -/
theorem fetch_manifest_taxonomy (tool_name : String) (r : HttpOutcome)
    (m : Manifest) :
    fetch_tool_manifest tool_name r = Except.ok m
      ↔ r = HttpOutcome.response 200 (Except.ok m) := by
  constructor
  · intro h
    cases r with
    | netError e => exact Except.noConfusion h
    | response status body =>
      cases body with
      | error e => exact Except.noConfusion h
      | ok m' =>
        simp only [fetch_tool_manifest] at h
        by_cases h4 : 400 ≤ status ∧ status < 600
        · rw [if_pos h4] at h
          exact Except.noConfusion h
        · rw [if_neg h4] at h
          by_cases h2 : status = 200
          · rw [if_pos h2] at h
            injection h with h
            rw [h2, h]
          · rw [if_neg h2] at h
            exact Except.noConfusion h
  · intro h
    subst h
    simp [fetch_tool_manifest]

/-! ## C8: conversation history retrieval (models/agent.py) -/

/-- A message stored in the checkpoint: its `type` ("human" for user
messages) and its `content` (a string or a list of typed items). -/
structure StoredMsg where
  type : String
  content : Content
  deriving DecidableEq

/-- Flattening of list-valued content as stated by the spec: the in-order
concatenation of the text of the "text"-typed items only. -/
def flattenTextItems (l : List Item) : String :=
  String.join (l.filterMap fun i =>
    match i with
    | Item.text s => some s
    | _ => none)

/-- The loop body of `get_conversation_history`: role "user" iff the stored
message's type is "human", else "assistant"; list-valued content is joined
over its "text"-typed items (`"".join(item["text"] for item in content if
item["type"] == "text")`). -/
def historyEntry (msg : StoredMsg) : HistMsg :=
  { role := if msg.type = "human" then "user" else "assistant",
    content :=
      match msg.content with
      | Content.str s => s
      | Content.items l =>
        String.join (l.filterMap fun i =>
          match i with
          | Item.text s => some s
          | _ => none) }

/-- `get_conversation_history(checkpointer, thread_id)`: `none` models a
missing checkpoint (`checkpointer.get(...)` falsy), returned as the empty
list, not an error; otherwise every stored message is converted in order. -/
def get_conversation_history (state : Option (List StoredMsg)) :
    List HistMsg :=
  match state with
  | none => []
  | some msgs => msgs.map historyEntry

/-- C8: history retrieval returns the empty sequence (not an error) when no
checkpoint exists; otherwise it returns one entry per stored message, in
order, whose role is "user" exactly when the stored message's type is
"human" (and "assistant" otherwise), and whose list-valued content is
flattened to the in-order concatenation of its text-typed items only. -/
theorem get_conversation_history_contract :
    get_conversation_history none = [] ∧
    ∀ msgs : List StoredMsg,
      (get_conversation_history (some msgs)).length = msgs.length ∧
      ∀ i : Nat, i < msgs.length →
        ((((get_conversation_history (some msgs)).getD i ⟨"", ""⟩).role
            = "user")
          ↔ (msgs.getD i ⟨"", Content.str ""⟩).type = "human") ∧
        (((get_conversation_history (some msgs)).getD i ⟨"", ""⟩).role = "user"
          ∨ ((get_conversation_history (some msgs)).getD i ⟨"", ""⟩).role
            = "assistant") ∧
        ∀ l : List Item,
          (msgs.getD i ⟨"", Content.str ""⟩).content = Content.items l →
          ((get_conversation_history (some msgs)).getD i ⟨"", ""⟩).content
            = flattenTextItems l := by
  refine ⟨rfl, ?_⟩
  intro msgs
  constructor
  · simp [get_conversation_history]
  · intro i hi
    have hm : (get_conversation_history (some msgs)).getD i ⟨"", ""⟩
        = historyEntry (msgs.getD i ⟨"", Content.str ""⟩) := by
      simp [get_conversation_history, List.getD_eq_getElem?_getD,
        List.getElem?_map, List.getElem?_eq_getElem hi]
    refine ⟨?_, ?_, ?_⟩
    · rw [hm]
      simp only [historyEntry]
      by_cases ht : (msgs.getD i ⟨"", Content.str ""⟩).type = "human"
      · rw [if_pos ht]
        exact iff_of_true rfl ht
      · rw [if_neg ht]
        exact iff_of_false (by decide) ht
    · rw [hm]
      simp only [historyEntry]
      by_cases ht : (msgs.getD i ⟨"", Content.str ""⟩).type = "human"
      · rw [if_pos ht]
        exact Or.inl rfl
      · rw [if_neg ht]
        exact Or.inr rfl
    · intro l hl
      rw [hm]
      simp only [historyEntry, hl]
      rfl

/-- The concrete checkpoint content used as the C8 witness: a human string
message and an assistant message with mixed structured content. -/
def sampleMsgs : List StoredMsg :=
  [⟨"human", Content.str "hi"⟩,
   ⟨"ai", Content.items [Item.text "a", Item.toolUse "x", Item.text "b"]⟩]

/-- C8 witness: the contract instantiated at a concrete checkpoint and
index. -/
theorem get_conversation_history_contract_witness :
    0 < sampleMsgs.length ∧
    (((((get_conversation_history (some sampleMsgs)).getD 0 ⟨"", ""⟩).role
        = "user")
      ↔ (sampleMsgs.getD 0 ⟨"", Content.str ""⟩).type = "human") ∧
    (((get_conversation_history (some sampleMsgs)).getD 0 ⟨"", ""⟩).role
        = "user"
      ∨ ((get_conversation_history (some sampleMsgs)).getD 0 ⟨"", ""⟩).role
        = "assistant") ∧
    ∀ l : List Item,
      (sampleMsgs.getD 0 ⟨"", Content.str ""⟩).content = Content.items l →
      ((get_conversation_history (some sampleMsgs)).getD 0 ⟨"", ""⟩).content
        = flattenTextItems l) :=
  ⟨by decide, (get_conversation_history_contract.2 sampleMsgs).2 0 (by decide)⟩

end AgentApp
